import Mathlib

/-!
Shallow embedding of the Event Management API (src/module1.py) and proofs
about its operations: event creation, status updates, attendee registration
with capacity checks, single and bulk check-in, and list/filter queries.

Modelling conventions:
- Timestamps (`datetime`) are integers counting seconds; `timedelta(days=1)`
  is the constant 86400.
- SQLAlchemy integer primary keys and the `int` route parameters are `Int`.
- The request-scoped session of `get_db` is modelled by explicit state
  passing: each endpoint takes the persisted database `DB` and returns the
  database as persisted after the request.  An endpoint that raises before
  its `db.commit()` returns `Except.error`, and the persisted database is
  then the unchanged input (the session is closed without committing, so
  nothing is flushed to storage).
- `raise HTTPException(code, detail)` is `ApiError.httpException code detail`.
  Exceptions that no service code raises or handles (the
  `IntegrityError` of the storage layer from the UNIQUE constraint on `attendees.email`, and
  `ValueError` from `int()` on a malformed CSV field, `IndexError` from
  `row[0]` on an empty row) get their own constructors, so that a result
  records whether a failure was a service-level `HTTPException` or an
  unhandled exception escaping the endpoint.
-/

/-- Status enumeration `EventStatus` from the source. -/
inductive EventStatus where
  | scheduled
  | ongoing
  | completed
  | canceled
  deriving DecidableEq, Repr

/-- ORM model `Event`: one row of the `events` table. -/
structure Event where
  event_id : Int
  name : String
  description : String
  start_time : Int
  end_time : Int
  location : String
  max_attendees : Int
  status : EventStatus
  deriving DecidableEq, Repr

/-- ORM model `Attendee`: one row of the `attendees` table. -/
structure Attendee where
  attendee_id : Int
  first_name : String
  last_name : String
  email : String
  phone_number : String
  event_id : Int
  check_in_status : Bool
  deriving DecidableEq, Repr

/-- The persisted relational store: the two tables plus the autoincrement
counters that generate the next primary keys. -/
structure DB where
  events : List Event
  attendees : List Attendee
  nextEventId : Int
  nextAttendeeId : Int
  deriving DecidableEq, Repr

/-- The empty store created by `Base.metadata.create_all`; SQLite
autoincrement keys start at 1. -/
def initDB : DB := ⟨[], [], 1, 1⟩

/-- How a request can fail: a `raise HTTPException(status_code, detail)`
from the service code, or an exception no service code handles (storage
`IntegrityError` on the email UNIQUE constraint, `ValueError` from `int()`,
`IndexError` from `row[0]`). -/
inductive ApiError where
  | httpException (status_code : Int) (detail : String)
  | integrityError
  | valueError
  | indexError
  deriving DecidableEq, Repr

/-- Equality of request results is decidable, so concrete runs can be
checked by evaluation. -/
instance {ε α : Type} [DecidableEq ε] [DecidableEq α] : DecidableEq (Except ε α) := fun x y =>
  match x, y with
  | Except.error e₁, Except.error e₂ =>
    if h : e₁ = e₂ then isTrue (by rw [h]) else isFalse (fun hc => by cases hc; exact h rfl)
  | Except.ok a₁, Except.ok a₂ =>
    if h : a₁ = a₂ then isTrue (by rw [h]) else isFalse (fun hc => by cases hc; exact h rfl)
  | Except.error _, Except.ok _ => isFalse (fun hc => Except.noConfusion hc)
  | Except.ok _, Except.error _ => isFalse (fun hc => Except.noConfusion hc)

/-- True exactly for errors the service raises itself as `HTTPException`;
false for exceptions that escape the endpoint unhandled. -/
def ApiError.isServiceLevel : ApiError → Bool
  | .httpException _ _ => true
  | _ => false

/-- Embeds `db.query(Event).filter(Event.event_id == event_id).first()`. -/
def findEvent (db : DB) (event_id : Int) : Option Event :=
  db.events.find? (fun e => e.event_id == event_id)

/-- Embeds `db.query(Attendee).filter(Attendee.attendee_id == attendee_id).first()`. -/
def findAttendee (db : DB) (attendee_id : Int) : Option Attendee :=
  db.attendees.find? (fun a => a.attendee_id == attendee_id)

/-- The rows of `attendees` whose `event_id` foreign key is `event_id`;
this is both the `event.attendees` relationship collection and the result
of `list_attendees`. -/
def attendeesOf (atts : List Attendee) (event_id : Int) : List Attendee :=
  atts.filter (fun a => a.event_id == event_id)

/-- POST `/events/`: `create_event`.  Builds the `Event` (status takes the
column default `scheduled`), adds and commits it.  No validation of any
argument is performed and no exception can be raised, so the result is
total: the new persisted store paired with the created event. -/
def create_event (db : DB) (name description : String) (start_time end_time : Int)
    (location : String) (max_attendees : Int) : DB × Event :=
  let event : Event :=
    { event_id := db.nextEventId, name := name, description := description,
      start_time := start_time, end_time := end_time, location := location,
      max_attendees := max_attendees, status := EventStatus.scheduled }
  ({ db with events := db.events ++ [event], nextEventId := db.nextEventId + 1 }, event)

/-- PUT `/events/{event_id}`: `update_event`.  404 when the lookup finds
nothing, otherwise assigns `event.status = status` and commits.  (The
assignment touches the single row the query returned; since `event_id` is
the primary key the map below rewrites exactly that row.) -/
def update_event (db : DB) (event_id : Int) (status : EventStatus) :
    Except ApiError (DB × Event) :=
  match findEvent db event_id with
  | none => Except.error (ApiError.httpException 404 "Event not found")
  | some event =>
    let updated := { event with status := status }
    Except.ok
      ({ db with events :=
          db.events.map (fun e => if e.event_id == event_id then updated else e) },
       updated)

/-- POST `/attendees/`: `register_attendee`.  404 when the event lookup
fails; 400 "Event is full" when `len(event.attendees) >= event.max_attendees`;
otherwise the new `Attendee` (with the column default
`check_in_status = False`) is added and committed.  The UNIQUE constraint
on `email` makes that commit raise `IntegrityError` — which no service code
catches — whenever the email is already stored. -/
def register_attendee (db : DB) (event_id : Int)
    (first_name last_name email phone_number : String) :
    Except ApiError (DB × Attendee) :=
  match findEvent db event_id with
  | none => Except.error (ApiError.httpException 404 "Event not found")
  | some event =>
    if ((attendeesOf db.attendees event_id).length : Int) ≥ event.max_attendees then
      Except.error (ApiError.httpException 400 "Event is full")
    else if db.attendees.any (fun a => a.email == email) then
      Except.error ApiError.integrityError
    else
      let attendee : Attendee :=
        { attendee_id := db.nextAttendeeId, first_name := first_name,
          last_name := last_name, email := email, phone_number := phone_number,
          event_id := event_id, check_in_status := false }
      Except.ok
        ({ db with
            attendees := db.attendees ++ [attendee],
            nextAttendeeId := db.nextAttendeeId + 1 }, attendee)

/-- Sets `check_in_status = True` on the single row `.first()` returned for
`attendee_id` (the one at the earliest position), leaving every other row
untouched. -/
def setCheckInFirst (attendee_id : Int) : List Attendee → List Attendee
  | [] => []
  | a :: rest =>
    if a.attendee_id == attendee_id then
      { a with check_in_status := true } :: rest
    else
      a :: setCheckInFirst attendee_id rest

/-- POST `/attendees/check-in/{attendee_id}`: `check_in_attendee`.  404 when
the lookup fails, otherwise assigns `check_in_status = True` and commits,
returning the (now checked-in) attendee. -/
def check_in_attendee (db : DB) (attendee_id : Int) : Except ApiError (DB × Attendee) :=
  match findAttendee db attendee_id with
  | none => Except.error (ApiError.httpException 404 "Attendee not found")
  | some attendee =>
    let updated := { attendee with check_in_status := true }
    Except.ok ({ db with attendees := setCheckInFirst attendee_id db.attendees }, updated)

/-- One day, `timedelta(days=1)`, in seconds. -/
def oneDay : Int := 86400

/-- GET `/events/`: `list_events`.  Applies each filter only when its
argument is truthy in Python: `None` is skipped for all three, and the
empty string is also falsy, so `location=\x22\x22` skips the location filter
(every `EventStatus` member and every `datetime` is truthy).  The date
filter keeps events with `start_time >= date` and
`end_time <= date + timedelta(days=1)`. -/
def list_events (db : DB) (status : Option EventStatus) (location : Option String)
    (date : Option Int) : List Event :=
  let q := db.events
  let q := match status with
    | some s => q.filter (fun e => e.status == s)
    | none => q
  let q := match location with
    | some l => if l == "" then q else q.filter (fun e => e.location == l)
    | none => q
  let q := match date with
    | some d => q.filter (fun e => decide (d ≤ e.start_time) && decide (e.end_time ≤ d + oneDay))
    | none => q
  q

/-- GET `/events/{event_id}/attendees`: `list_attendees`. -/
def list_attendees (db : DB) (event_id : Int) : List Attendee :=
  db.attendees.filter (fun a => a.event_id == event_id)

/-- Value of a decimal digit character, `None` on anything else. -/
def digitVal (c : Char) : Option Nat :=
  if c.isDigit then some (c.toNat - 48) else none

/-- Accumulates decimal digits; fails on the first non-digit. -/
def parseDigitsAux : List Char → Nat → Option Nat
  | [], acc => some acc
  | c :: cs, acc =>
    match digitVal c with
    | none => none
    | some d => parseDigitsAux cs (acc * 10 + d)

/-- Parses a non-empty all-digit string. -/
def parseDigits : List Char → Option Nat
  | [] => none
  | cs => parseDigitsAux cs 0

/-- Model of Python `int(s)` on a CSV field: an optional minus sign followed
by at least one decimal digit; every other string raises `ValueError`
(returns `none`). -/
def parseIntField (s : String) : Option Int :=
  match s.data with
  | [] => none
  | '-' :: ds => (parseDigits ds).map (fun n => -(n : Int))
  | ds => (parseDigits ds).map (fun n => (n : Int))

/-- One CSV row as its list of fields. -/
abbrev Row := List String

/-- The loop body of `bulk_check_in` over the working copy of the
`attendees` table held by the session: for each row, `int(row[0])` (an empty row raises
`IndexError`, a non-integer field raises `ValueError`, both unhandled and
both reached before the final commit), then the lookup-and-mark that
silently does nothing when the id is unknown. -/
def bulk_check_in_rows (atts : List Attendee) : List Row → Except ApiError (List Attendee)
  | [] => Except.ok atts
  | row :: rest =>
    match row.head? with
    | none => Except.error ApiError.indexError
    | some field =>
      match parseIntField field with
      | none => Except.error ApiError.valueError
      | some aid => bulk_check_in_rows (setCheckInFirst aid atts) rest

/-- POST `/attendees/bulk-check-in/`: `bulk_check_in`.  Processes every row,
then commits once at the end and returns the completion message.  If any
row raises, the commit is never reached and the session closes without
flushing, so the persisted store is unchanged (hence the plain
`Except.error`). -/
def bulk_check_in (db : DB) (rows : List Row) : Except ApiError (DB × String) :=
  match bulk_check_in_rows db.attendees rows with
  | Except.error e => Except.error e
  | Except.ok atts => Except.ok ({ db with attendees := atts }, "Bulk check-in completed")

/-- The API surface as an operation alphabet, for reachability statements. -/
inductive Op where
  | createEvent (name description : String) (start_time end_time : Int)
      (location : String) (max_attendees : Int)
  | updateEventStatus (event_id : Int) (status : EventStatus)
  | registerAttendee (event_id : Int) (first_name last_name email phone_number : String)
  | checkIn (attendee_id : Int)
  | bulkCheckIn (rows : List Row)

/-- The store persisted after one request: the committed store on success,
the unchanged input store when the request raised before its commit. -/
def applyOp (db : DB) : Op → DB
  | Op.createEvent n d s e l m => (create_event db n d s e l m).1
  | Op.updateEventStatus eid st =>
    match update_event db eid st with
    | Except.ok (db2, _) => db2
    | Except.error _ => db
  | Op.registerAttendee eid fn ln em ph =>
    match register_attendee db eid fn ln em ph with
    | Except.ok (db2, _) => db2
    | Except.error _ => db
  | Op.checkIn aid =>
    match check_in_attendee db aid with
    | Except.ok (db2, _) => db2
    | Except.error _ => db
  | Op.bulkCheckIn rows =>
    match bulk_check_in db rows with
    | Except.ok (db2, _) => db2
    | Except.error _ => db

/-- Runs a sequence of requests against a store. -/
def runOps (db : DB) : List Op → DB
  | [] => db
  | op :: rest => runOps (applyOp db op) rest

/-- States the persisted store can be in after any sequence of requests
against the fresh store. -/
def reachable (db : DB) : Prop := ∃ ops, runOps initDB ops = db

/-- Modelled from the spec (for the refinement comparison in the listEvents
claim): an event matches the provided filters when its status equals a
provided status, its location equals a provided location, and a provided
date `d` satisfies `d ≤ start_time` and `end_time ≤ d + 24h`. -/
def spec_matchesFilters (status : Option EventStatus) (location : Option String)
    (date : Option Int) (e : Event) : Bool :=
  (match status with
   | some s => e.status == s
   | none => true) &&
  (match location with
   | some l => e.location == l
   | none => true) &&
  (match date with
   | some d => decide (d ≤ e.start_time) && decide (e.end_time ≤ d + oneDay)
   | none => true)

/-- Parses the attendee id a row carries: `int(row[0])`, `none` when the row
is empty or its first field is not an integer literal. -/
def parseRow (row : Row) : Option Int :=
  match row.head? with
  | none => none
  | some s => parseIntField s

/-- True when an `Except` result is an error, i.e. the request raised. -/
def requestFailed {α : Type} : Except ApiError α → Bool
  | Except.error _ => true
  | Except.ok _ => false

/-! ### Concrete fixture stores, built by running request sequences -/

/-- Requests: create an event with capacity 5, register one attendee. -/
def opsC1 : List Op :=
  [Op.createEvent "Launch" "demo" 0 3600 "HQ" 5,
   Op.registerAttendee 1 "Ann" "Ames" "ann@x" "p1"]

/-- The store after `opsC1`. -/
def dbC1 : DB := runOps initDB opsC1

/-- The single event of `dbC1`. -/
def evC1 : Event := ⟨1, "Launch", "demo", 0, 3600, "HQ", 5, EventStatus.scheduled⟩

/-- The single attendee of `dbC1`. -/
def attC1 : Attendee := ⟨1, "Ann", "Ames", "ann@x", "p1", 1, false⟩

/-- Requests: create an event with capacity 5, register two attendees. -/
def opsW2 : List Op :=
  [Op.createEvent "Launch" "demo" 0 3600 "HQ" 5,
   Op.registerAttendee 1 "Ann" "Ames" "ann@x" "p1",
   Op.registerAttendee 1 "Bob" "Berg" "bob@x" "p2"]

/-- The store after `opsW2`. -/
def dbW2 : DB := runOps initDB opsW2

/-- Request: create an event whose `max_attendees` is negative (the endpoint
performs no validation). -/
def opsNeg : List Op := [Op.createEvent "Gala" "demo" 0 0 "Hall" (-1)]

/-- The store after `opsNeg`: one event of capacity -1 and no attendees. -/
def dbNeg : DB := ⟨[⟨1, "Gala", "demo", 0, 0, "Hall", -1, EventStatus.scheduled⟩], [], 2, 1⟩

/-- The negative-capacity event of `dbNeg`. -/
def evNeg : Event := ⟨1, "Gala", "demo", 0, 0, "Hall", -1, EventStatus.scheduled⟩

/-- True when a request failed and the failure was raised by the service
itself as an `HTTPException`; false when it succeeded or when the failure
was an exception escaping the endpoint unhandled. -/
def failsServiceLevel {α : Type} : Except ApiError α → Bool
  | Except.error e => e.isServiceLevel
  | Except.ok _ => false

/-- The store after only the event-creation request of `opsC1`. -/
def dbE1 : DB := runOps initDB [Op.createEvent "Launch" "demo" 0 3600 "HQ" 5]

/-- Row of attendee Ann after check-in. -/
def attAnnChecked : Attendee := ⟨1, "Ann", "Ames", "ann@x", "p1", 1, true⟩

/-- The store `dbW2` after checking in attendee 1. -/
def dbW2c : DB :=
  ⟨[⟨1, "Launch", "demo", 0, 3600, "HQ", 5, EventStatus.scheduled⟩],
   [⟨1, "Ann", "Ames", "ann@x", "p1", 1, true⟩,
    ⟨2, "Bob", "Berg", "bob@x", "p2", 1, false⟩], 2, 3⟩

/-- A well-formed CSV upload: ids 1 (existing) and 99 (unknown). -/
def rowsW : List Row := [["1"], ["99"]]

/-- A CSV upload whose second row has a non-integer first field. -/
def rowsBad : List Row := [["1"], ["abc"]]

/-! ### Invariants of reachable stores -/

/-- Structural invariants every store reachable through the API maintains:
primary keys are unique and below the autoincrement counters, every
`event_id` of every attendee references an existing event, and every event with a
nonnegative capacity has at most `max_attendees` attendees. -/
structure DBInv (db : DB) : Prop where
  evIds : db.events.Pairwise (fun e₁ e₂ => e₁.event_id ≠ e₂.event_id)
  evBound : ∀ e ∈ db.events, e.event_id < db.nextEventId
  attIds : db.attendees.Pairwise (fun a₁ a₂ => a₁.attendee_id ≠ a₂.attendee_id)
  attBound : ∀ a ∈ db.attendees, a.attendee_id < db.nextAttendeeId
  fk : ∀ a ∈ db.attendees, ∃ e ∈ db.events, e.event_id = a.event_id
  capacity : ∀ e ∈ db.events, 0 ≤ e.max_attendees →
    ((attendeesOf db.attendees e.event_id).length : Int) ≤ e.max_attendees

/-! ### Generic list lemmas -/

theorem pairwise_ne_inj {α β : Type} {f : α → β} {l : List α}
    (hp : l.Pairwise (fun a b => f a ≠ f b)) {a b : α}
    (ha : a ∈ l) (hb : b ∈ l) (hf : f a = f b) : a = b := by
  induction l with
  | nil => cases ha
  | cons x t ih =>
    have hx := (List.pairwise_cons.mp hp).1
    have ht := (List.pairwise_cons.mp hp).2
    rcases List.mem_cons.mp ha with rfl | ha₂
    · rcases List.mem_cons.mp hb with rfl | hb₂
      · rfl
      · exact absurd hf (hx b hb₂)
    · rcases List.mem_cons.mp hb with rfl | hb₂
      · exact absurd hf.symm (hx a ha₂)
      · exact ih ht ha₂ hb₂

theorem mapEq_pairwise {α β : Type} {f : α → β} {l₁ l₂ : List α}
    (h : l₁.map f = l₂.map f) (hp : l₁.Pairwise (fun a b => f a ≠ f b)) :
    l₂.Pairwise (fun a b => f a ≠ f b) := by
  have h₁ : (l₁.map f).Pairwise (fun a b => a ≠ b) := List.pairwise_map.mpr hp
  rw [h] at h₁
  exact List.pairwise_map.mp h₁

theorem mapEq_filter_length {α β : Type} (f : α → β) (p : β → Bool) {l₁ l₂ : List α}
    (h : l₁.map f = l₂.map f) :
    (l₁.filter (fun a => p (f a))).length = (l₂.filter (fun a => p (f a))).length := by
  have hc := congrArg (fun l => (List.filter p l).length) h
  simpa [List.filter_map, List.length_map, Function.comp] using hc

theorem mapEq_exists_mem {α β : Type} {f : α → β} {l₁ l₂ : List α}
    (h : l₁.map f = l₂.map f) {a : α} (ha : a ∈ l₁) : ∃ b ∈ l₂, f b = f a := by
  have : f a ∈ l₁.map f := List.mem_map.mpr ⟨a, ha, rfl⟩
  rw [h] at this
  rcases List.mem_map.mp this with ⟨b, hb, hfb⟩
  exact ⟨b, hb, hfb⟩

/-! ### Lemmas about the check-in row update -/

theorem setCheckInFirst_map_attendeeId (aid : Int) (l : List Attendee) :
    (setCheckInFirst aid l).map (fun a => a.attendee_id) = l.map (fun a => a.attendee_id) := by
  induction l with
  | nil => rfl
  | cons a t ih =>
    simp only [setCheckInFirst]
    split
    · simp
    · simpa using ih

theorem setCheckInFirst_map_eventId (aid : Int) (l : List Attendee) :
    (setCheckInFirst aid l).map (fun a => a.event_id) = l.map (fun a => a.event_id) := by
  induction l with
  | nil => rfl
  | cons a t ih =>
    simp only [setCheckInFirst]
    split
    · simp
    · simpa using ih

theorem setCheckInFirst_find? (aid : Int) (l : List Attendee) {a : Attendee}
    (h : l.find? (fun x => x.attendee_id == aid) = some a) :
    (setCheckInFirst aid l).find? (fun x => x.attendee_id == aid) =
      some { a with check_in_status := true } := by
  induction l with
  | nil => simp at h
  | cons b t ih =>
    simp only [setCheckInFirst]
    by_cases hb : (b.attendee_id == aid) = true
    · rw [if_pos hb]
      rw [List.find?_cons, hb] at h
      cases h
      rw [List.find?_cons]
      simp [hb]
    · rw [if_neg hb]
      rw [List.find?_cons] at h
      rw [List.find?_cons]
      simp only [Bool.not_eq_true] at hb
      rw [hb] at h
      rw [hb]
      exact ih h

theorem bulk_rows_maps (rows : List Row) : ∀ l l' : List Attendee,
    bulk_check_in_rows l rows = Except.ok l' →
    l'.map (fun a => a.attendee_id) = l.map (fun a => a.attendee_id) ∧
    l'.map (fun a => a.event_id) = l.map (fun a => a.event_id) := by
  induction rows with
  | nil =>
    intro l l' h
    simp only [bulk_check_in_rows, Except.ok.injEq] at h
    subst h
    exact ⟨rfl, rfl⟩
  | cons row rest ih =>
    intro l l' h
    simp only [bulk_check_in_rows] at h
    split at h
    · exact Except.noConfusion h
    · split at h
      · exact Except.noConfusion h
      · rename_i aid hp
        have hrec := ih (setCheckInFirst aid l) l' h
        refine ⟨?_, ?_⟩
        · rw [hrec.1, setCheckInFirst_map_attendeeId]
        · rw [hrec.2, setCheckInFirst_map_eventId]

theorem setCheckInFirst_idem (aid : Int) (l : List Attendee) :
    setCheckInFirst aid (setCheckInFirst aid l) = setCheckInFirst aid l := by
  induction l with
  | nil => rfl
  | cons b t ih =>
    simp only [setCheckInFirst]
    by_cases hb : (b.attendee_id == aid) = true
    · rw [if_pos hb]
      simp only [setCheckInFirst]
      rw [if_pos (by simpa using hb)]
    · rw [if_neg hb]
      simp only [setCheckInFirst]
      rw [if_neg hb, ih]

/-! ### Preservation of the invariants by each endpoint -/

theorem dbinv_init : DBInv initDB :=
  ⟨List.Pairwise.nil, by simp [initDB], List.Pairwise.nil, by simp [initDB],
   by simp [initDB], by simp [initDB]⟩

theorem dbinv_create (db : DB) (n d : String) (s e : Int) (loc : String) (m : Int)
    (h : DBInv db) : DBInv ((create_event db n d s e loc m).1) := by
  obtain ⟨hevIds, hevB, hattIds, hattB, hfk, hcap⟩ := h
  have hnil : attendeesOf db.attendees db.nextEventId = [] := by
    rw [attendeesOf, List.filter_eq_nil_iff]
    intro a ha
    obtain ⟨ev₂, hev₂, heq⟩ := hfk a ha
    have := hevB ev₂ hev₂
    simp only [beq_iff_eq]
    rw [← heq]
    omega
  refine ⟨?_, ?_, ?_, ?_, ?_, ?_⟩ <;> dsimp only [create_event]
  · rw [List.pairwise_append]
    refine ⟨hevIds, by simp, ?_⟩
    intro a ha b hb
    simp only [List.mem_singleton] at hb
    subst hb
    have := hevB a ha
    dsimp only
    intro heq
    omega
  · intro ev hev
    rcases List.mem_append.mp hev with hev | hev
    · have := hevB ev hev
      omega
    · simp only [List.mem_singleton] at hev
      subst hev
      dsimp only
      omega
  · exact hattIds
  · exact hattB
  · intro a ha
    obtain ⟨ev, hev, heq⟩ := hfk a ha
    exact ⟨ev, List.mem_append_left _ hev, heq⟩
  · intro ev hev hm
    rcases List.mem_append.mp hev with hev | hev
    · exact hcap ev hev hm
    · simp only [List.mem_singleton] at hev
      subst hev
      dsimp only at hm ⊢
      rw [hnil]
      simpa using hm

theorem dbinv_update (db db₂ : DB) (eid : Int) (st : EventStatus) (ev : Event)
    (h : DBInv db) (hok : update_event db eid st = Except.ok (db₂, ev)) : DBInv db₂ := by
  obtain ⟨hevIds, hevB, hattIds, hattB, hfk, hcap⟩ := h
  unfold update_event at hok
  cases hf : findEvent db eid with
  | none => rw [hf] at hok; exact Except.noConfusion hok
  | some event =>
    rw [hf] at hok
    simp only [Except.ok.injEq, Prod.mk.injEq] at hok
    obtain ⟨hdb, -⟩ := hok
    subst hdb
    have hevmem : event ∈ db.events := List.mem_of_find?_eq_some hf
    have hevid : event.event_id = eid := by simpa using List.find?_some hf
    have hid : ∀ x : Event,
        ((fun e => if e.event_id == eid then { event with status := st } else e) x).event_id
          = x.event_id := by
      intro x
      by_cases hx : (x.event_id == eid) = true
      · simp only [hx, if_true]
        simp only [beq_iff_eq] at hx
        rw [hevid, hx]
      · simp only [hx]
        simp
    have hmapid :
        ((db.events.map (fun e => if e.event_id == eid then { event with status := st } else e)).map
          (fun x => x.event_id)) = db.events.map (fun x => x.event_id) := by
      rw [List.map_map]
      exact List.map_congr_left (fun a _ => hid a)
    refine ⟨?_, ?_, hattIds, hattB, ?_, ?_⟩
    · exact mapEq_pairwise hmapid.symm hevIds
    · intro e₂ he₂
      rcases List.mem_map.mp he₂ with ⟨x, hx, rfl⟩
      rw [hid x]
      exact hevB x hx
    · intro a ha
      obtain ⟨e₂, he₂, heq⟩ := hfk a ha
      refine ⟨_, List.mem_map_of_mem _ he₂, ?_⟩
      rw [hid e₂]
      exact heq
    · intro e₂ he₂ hm₂
      rcases List.mem_map.mp he₂ with ⟨x, hx, rfl⟩
      have hmax :
          ((fun e => if e.event_id == eid then { event with status := st } else e) x).max_attendees
            = x.max_attendees := by
        by_cases hxe : (x.event_id == eid) = true
        · simp only [hxe, if_true]
          simp only [beq_iff_eq] at hxe
          have hxev : x = event := pairwise_ne_inj hevIds hx hevmem (by rw [hxe, hevid])
          rw [hxev]
        · simp only [hxe]
          simp
      rw [hmax] at hm₂
      rw [hmax, hid x]
      exact hcap x hx hm₂

theorem dbinv_register (db db₂ : DB) (eid : Int) (fn ln em ph : String) (a : Attendee)
    (h : DBInv db) (hok : register_attendee db eid fn ln em ph = Except.ok (db₂, a)) :
    DBInv db₂ := by
  obtain ⟨hevIds, hevB, hattIds, hattB, hfk, hcap⟩ := h
  simp only [register_attendee] at hok
  split at hok
  · exact Except.noConfusion hok
  · rename_i event hf
    split at hok
    · exact Except.noConfusion hok
    · rename_i hge
      split at hok
      · exact Except.noConfusion hok
      · rename_i hdup
        simp only [Except.ok.injEq, Prod.mk.injEq] at hok
        obtain ⟨hdb, -⟩ := hok
        subst hdb
        have hevmem : event ∈ db.events := List.mem_of_find?_eq_some hf
        have hevid : event.event_id = eid := by simpa using List.find?_some hf
        refine ⟨?_, ?_, ?_, ?_, ?_, ?_⟩ <;> dsimp only
        · exact hevIds
        · exact hevB
        · rw [List.pairwise_append]
          refine ⟨hattIds, by simp, ?_⟩
          intro x hx b hb
          simp only [List.mem_singleton] at hb
          subst hb
          have := hattB x hx
          dsimp only
          intro heqx
          omega
        · intro x hx
          rcases List.mem_append.mp hx with hx | hx
          · have := hattB x hx
            omega
          · simp only [List.mem_singleton] at hx
            subst hx
            dsimp only
            omega
        · intro x hx
          rcases List.mem_append.mp hx with hx | hx
          · exact hfk x hx
          · simp only [List.mem_singleton] at hx
            subst hx
            exact ⟨event, hevmem, hevid⟩
        · intro ev₂ hev₂ hm₂
          simp only [attendeesOf] at hge ⊢
          rw [List.filter_append, List.length_append]
          by_cases hee : ev₂.event_id = eid
          · have hvev : ev₂ = event := pairwise_ne_inj hevIds hev₂ hevmem (by rw [hee, hevid])
            subst hvev
            rw [hee]
            have h1 : (List.filter (fun x => x.event_id == eid)
                [(⟨db.nextAttendeeId, fn, ln, em, ph, eid, false⟩ : Attendee)]).length = 1 := by
              simp
            rw [h1]
            omega
          · have h0 : (List.filter (fun x => x.event_id == ev₂.event_id)
                [(⟨db.nextAttendeeId, fn, ln, em, ph, eid, false⟩ : Attendee)]).length = 0 := by
              simp only [List.filter, List.length]
              have : ((⟨db.nextAttendeeId, fn, ln, em, ph, eid, false⟩ : Attendee).event_id
                  == ev₂.event_id) = false := by
                simp only [beq_eq_false_iff_ne]
                omega
              rw [this]
              rfl
            rw [h0]
            have := hcap ev₂ hev₂ hm₂
            simp only [attendeesOf] at this
            omega

theorem dbinv_checkin (db db₂ : DB) (aid : Int) (a : Attendee)
    (h : DBInv db) (hok : check_in_attendee db aid = Except.ok (db₂, a)) : DBInv db₂ := by
  obtain ⟨hevIds, hevB, hattIds, hattB, hfk, hcap⟩ := h
  unfold check_in_attendee at hok
  cases hf : findAttendee db aid with
  | none => rw [hf] at hok; exact Except.noConfusion hok
  | some att =>
    rw [hf] at hok
    simp only [Except.ok.injEq, Prod.mk.injEq] at hok
    obtain ⟨hdb, -⟩ := hok
    subst hdb
    have hmapA := setCheckInFirst_map_attendeeId aid db.attendees
    have hmapE := setCheckInFirst_map_eventId aid db.attendees
    refine ⟨?_, ?_, ?_, ?_, ?_, ?_⟩ <;> dsimp only
    · exact hevIds
    · exact hevB
    · exact mapEq_pairwise hmapA.symm hattIds
    · intro x hx
      obtain ⟨b, hb, hfb⟩ := mapEq_exists_mem hmapA hx
      rw [← hfb]
      exact hattB b hb
    · intro x hx
      obtain ⟨b, hb, hfb⟩ := mapEq_exists_mem hmapE hx
      obtain ⟨ev₂, hev₂, heq⟩ := hfk b hb
      exact ⟨ev₂, hev₂, heq.trans hfb⟩
    · intro ev₂ hev₂ hm₂
      have hlen : (List.filter (fun x => x.event_id == ev₂.event_id)
          (setCheckInFirst aid db.attendees)).length =
          (List.filter (fun x => x.event_id == ev₂.event_id) db.attendees).length :=
        mapEq_filter_length (fun x : Attendee => x.event_id) (fun i => i == ev₂.event_id) hmapE
      simp only [attendeesOf]
      rw [hlen]
      have := hcap ev₂ hev₂ hm₂
      simpa [attendeesOf] using this

theorem dbinv_bulk (db db₂ : DB) (rows : List Row) (msg : String)
    (h : DBInv db) (hok : bulk_check_in db rows = Except.ok (db₂, msg)) : DBInv db₂ := by
  obtain ⟨hevIds, hevB, hattIds, hattB, hfk, hcap⟩ := h
  unfold bulk_check_in at hok
  cases hr : bulk_check_in_rows db.attendees rows with
  | error err => rw [hr] at hok; exact Except.noConfusion hok
  | ok atts =>
    rw [hr] at hok
    simp only [Except.ok.injEq, Prod.mk.injEq] at hok
    obtain ⟨hdb, -⟩ := hok
    subst hdb
    obtain ⟨hmapA, hmapE⟩ := bulk_rows_maps rows db.attendees atts hr
    refine ⟨?_, ?_, ?_, ?_, ?_, ?_⟩ <;> dsimp only
    · exact hevIds
    · exact hevB
    · exact mapEq_pairwise hmapA.symm hattIds
    · intro x hx
      obtain ⟨b, hb, hfb⟩ := mapEq_exists_mem hmapA hx
      rw [← hfb]
      exact hattB b hb
    · intro x hx
      obtain ⟨b, hb, hfb⟩ := mapEq_exists_mem hmapE hx
      obtain ⟨ev₂, hev₂, heq⟩ := hfk b hb
      exact ⟨ev₂, hev₂, heq.trans hfb⟩
    · intro ev₂ hev₂ hm₂
      have hlen : (List.filter (fun x => x.event_id == ev₂.event_id) atts).length =
          (List.filter (fun x => x.event_id == ev₂.event_id) db.attendees).length :=
        mapEq_filter_length (fun x : Attendee => x.event_id) (fun i => i == ev₂.event_id) hmapE
      simp only [attendeesOf]
      rw [hlen]
      have := hcap ev₂ hev₂ hm₂
      simpa [attendeesOf] using this

theorem dbinv_applyOp (db : DB) (op : Op) (h : DBInv db) : DBInv (applyOp db op) := by
  cases op with
  | createEvent n d s e loc m => exact dbinv_create db n d s e loc m h
  | updateEventStatus eid st =>
    simp only [applyOp]
    cases hr : update_event db eid st with
    | error err => exact h
    | ok p =>
      obtain ⟨db₂, ev⟩ := p
      exact dbinv_update db db₂ eid st ev h hr
  | registerAttendee eid fn ln em ph =>
    simp only [applyOp]
    cases hr : register_attendee db eid fn ln em ph with
    | error err => exact h
    | ok p =>
      obtain ⟨db₂, a⟩ := p
      exact dbinv_register db db₂ eid fn ln em ph a h hr
  | checkIn aid =>
    simp only [applyOp]
    cases hr : check_in_attendee db aid with
    | error err => exact h
    | ok p =>
      obtain ⟨db₂, a⟩ := p
      exact dbinv_checkin db db₂ aid a h hr
  | bulkCheckIn rows =>
    simp only [applyOp]
    cases hr : bulk_check_in db rows with
    | error err => exact h
    | ok p =>
      obtain ⟨db₂, msg⟩ := p
      exact dbinv_bulk db db₂ rows msg h hr

theorem dbinv_runOps (ops : List Op) : ∀ db : DB, DBInv db → DBInv (runOps db ops) := by
  induction ops with
  | nil => intro db h; exact h
  | cons op rest ih => intro db h; exact ih (applyOp db op) (dbinv_applyOp db op h)

theorem dbinv_reachable (db : DB) (h : reachable db) : DBInv db := by
  obtain ⟨ops, hops⟩ := h
  rw [← hops]
  exact dbinv_runOps ops initDB dbinv_init

/-! ### Small record lemmas -/

theorem attendee_set_check_eta (a : Attendee) (h : a.check_in_status = true) :
    { a with check_in_status := true } = a := by
  cases a
  simp only at h
  rw [h]

/-! ### Claim theorems -/

/-- C8: `createEvent` persists a new `Event` with `status = scheduled` for
every input, performing no validation: the embedded `create_event` is a
total function (it returns `DB × Event`, never an error), so it succeeds
even when `end_time ≤ start_time` or `max_attendees ≤ 0`, and the status of the created
event is `scheduled` regardless of the other arguments. -/
theorem create_event_no_validation (db : DB) (n d : String) (s e : Int)
    (loc : String) (m : Int) :
    (create_event db n d s e loc m).2.status = EventStatus.scheduled ∧
    (create_event db n d s e loc m).2 =
      ⟨db.nextEventId, n, d, s, e, loc, m, EventStatus.scheduled⟩ ∧
    (create_event db n d s e loc m).1 =
      { db with
          events := db.events ++ [(create_event db n d s e loc m).2],
          nextEventId := db.nextEventId + 1 } :=
  ⟨rfl, rfl, rfl⟩

/-- C5: `updateEventStatus` fails with 404 exactly when no event with the
given id exists; otherwise it sets the status of the event to the given value
unconditionally — the success case places no condition on the current
status of the event, so any status can be set from any other. -/
theorem update_event_spec (db : DB) (eid : Int) (st : EventStatus) :
    (update_event db eid st = Except.error (ApiError.httpException 404 "Event not found")
      ↔ findEvent db eid = none) ∧
    (∀ ev : Event, findEvent db eid = some ev →
      update_event db eid st =
        Except.ok
          ({ db with events :=
              db.events.map (fun x => if x.event_id == eid then { ev with status := st } else x) },
           { ev with status := st })) := by
  refine ⟨⟨?_, ?_⟩, ?_⟩
  · intro h
    cases hf : findEvent db eid with
    | none => rfl
    | some ev =>
      unfold update_event at h
      rw [hf] at h
      exact Except.noConfusion h
  · intro h
    unfold update_event
    rw [h]
  · intro ev hf
    unfold update_event
    rw [hf]

/-- Witness for `update_event_spec`: on the concrete store `dbC1` the
event with id 1 (currently `scheduled`) is set to `completed`. -/
theorem update_event_spec_witness :
    update_event dbC1 1 EventStatus.completed =
      Except.ok
        ({ dbC1 with events :=
            dbC1.events.map (fun x =>
              if x.event_id == 1 then { evC1 with status := EventStatus.completed } else x) },
         { evC1 with status := EventStatus.completed }) :=
  (update_event_spec dbC1 1 EventStatus.completed).2 evC1 (by decide)

/-- C3: `checkIn` is idempotent.  If a check-in call succeeds (the attendee
exists), the returned attendee has `check_in_status = true`, it is what the
store now holds for that id, and a second call on the same id does not
error, returns the same attendee, and leaves the store exactly as it was
after the first call. -/
theorem check_in_idempotent (db db₂ : DB) (aid : Int) (att : Attendee)
    (h : check_in_attendee db aid = Except.ok (db₂, att)) :
    att.check_in_status = true ∧
    findAttendee db₂ aid = some att ∧
    check_in_attendee db₂ aid = Except.ok (db₂, att) := by
  unfold check_in_attendee at h
  cases hf : findAttendee db aid with
  | none => rw [hf] at h; exact Except.noConfusion h
  | some a₀ =>
    rw [hf] at h
    simp only [Except.ok.injEq, Prod.mk.injEq] at h
    obtain ⟨hdb, hatt⟩ := h
    subst hdb
    subst hatt
    have hfind : findAttendee
        ({ db with attendees := setCheckInFirst aid db.attendees } : DB) aid =
        some { a₀ with check_in_status := true } :=
      setCheckInFirst_find? aid db.attendees hf
    refine ⟨rfl, hfind, ?_⟩
    simp only [check_in_attendee, hfind]
    simp only [Except.ok.injEq, Prod.mk.injEq]
    constructor
    · dsimp only
      rw [setCheckInFirst_idem]
    · trivial

/-- Witness for `check_in_idempotent`: checking in attendee 1 of `dbW2`
succeeds, and a second check-in is a no-op. -/
theorem check_in_idempotent_witness :
    attAnnChecked.check_in_status = true ∧
    findAttendee dbW2c 1 = some attAnnChecked ∧
    check_in_attendee dbW2c 1 = Except.ok (dbW2c, attAnnChecked) :=
  check_in_idempotent dbW2 dbW2c 1 attAnnChecked (by decide)

/-- C4 (amended): in every reachable store, every event whose
`max_attendees` is nonnegative has at most `max_attendees` attendees.
(The restriction to nonnegative capacities is forced: `create_event`
performs no validation, so an event with negative capacity exists in a
reachable store and violates the bound with zero attendees.) -/
theorem capacity_invariant_nonneg (db : DB) (hr : reachable db) :
    ∀ e ∈ db.events, 0 ≤ e.max_attendees →
      ((attendeesOf db.attendees e.event_id).length : Int) ≤ e.max_attendees :=
  (dbinv_reachable db hr).capacity

/-- Witness for `capacity_invariant_nonneg` on the concrete reachable store
`dbC1` and its event. -/
theorem capacity_invariant_nonneg_witness :
    ((attendeesOf dbC1.attendees evC1.event_id).length : Int) ≤ evC1.max_attendees :=
  capacity_invariant_nonneg dbC1 ⟨opsC1, rfl⟩ evC1 (by decide) (by decide)

/-- C4 counterexample: the store reached by creating one event with
`max_attendees = -1` (accepted, since `create_event` validates nothing)
already violates "count of attendees never exceeds max_attendees": the
event has 0 attendees and 0 > -1. -/
theorem capacity_invariant_refuted :
    runOps initDB opsNeg = dbNeg ∧
    evNeg ∈ dbNeg.events ∧
    evNeg.max_attendees < ((attendeesOf dbNeg.attendees evNeg.event_id).length : Int) :=
  ⟨by decide, by decide, by decide⟩

/-- C10: `listAttendees` returns exactly the attendees whose `event_id`
equals the given value, and for an event id that matches no event it
returns the empty sequence without raising (the embedded function is
total — no `NotFound` path exists). -/
theorem list_attendees_spec (db : DB) (hr : reachable db) (eid : Int) :
    (∀ a : Attendee, a ∈ list_attendees db eid ↔ a ∈ db.attendees ∧ a.event_id = eid) ∧
    (findEvent db eid = none → list_attendees db eid = []) := by
  have hfk := (dbinv_reachable db hr).fk
  constructor
  · intro a
    simp [list_attendees]
  · intro hnone
    rw [list_attendees, List.filter_eq_nil_iff]
    intro a ha
    obtain ⟨ev, hev, heq⟩ := hfk a ha
    have hne := List.find?_eq_none.mp hnone ev hev
    simp only [beq_iff_eq] at hne ⊢
    rw [← heq]
    exact hne

/-- Witness for `list_attendees_spec`: on the reachable store `dbC1`,
listing attendees of the unknown event id 99 yields the empty list. -/
theorem list_attendees_spec_witness : list_attendees dbC1 99 = [] :=
  (list_attendees_spec dbC1 ⟨opsC1, rfl⟩ 99).2 (by decide)

/-- C1 (amended): against an existing event, `registerAttendee` succeeds —
persisting a new attendee with `check_in_status = false` — whenever the
current attendee count is strictly below `max_attendees` AND the email is
not already stored; and it fails with 400 "Event is full" whenever the
count is at or above `max_attendees` (in particular the
(max_attendees+1)-th registration fails).  The email condition is forced:
the capacity condition alone does not guarantee success (see the
counterexample). -/
theorem register_attendee_capacity (db : DB) (eid : Int) (fn ln em ph : String)
    (event : Event) (hfind : findEvent db eid = some event) :
    (((attendeesOf db.attendees eid).length : Int) < event.max_attendees →
      db.attendees.any (fun a => a.email == em) = false →
      register_attendee db eid fn ln em ph =
        Except.ok
          ({ db with
              attendees := db.attendees ++ [⟨db.nextAttendeeId, fn, ln, em, ph, eid, false⟩],
              nextAttendeeId := db.nextAttendeeId + 1 },
           ⟨db.nextAttendeeId, fn, ln, em, ph, eid, false⟩)) ∧
    (((attendeesOf db.attendees eid).length : Int) ≥ event.max_attendees →
      register_attendee db eid fn ln em ph =
        Except.error (ApiError.httpException 400 "Event is full")) := by
  constructor
  · intro hlt hdup
    simp only [register_attendee, hfind]
    rw [if_neg (not_le.mpr hlt)]
    rw [if_neg (by simp [hdup])]
  · intro hge
    simp only [register_attendee, hfind]
    rw [if_pos hge]

/-- Witness for `register_attendee_capacity`: on `dbC1` (1 of 5 places
taken) registering Bob with a fresh email succeeds. -/
theorem register_attendee_capacity_witness :
    register_attendee dbC1 1 "Bob" "Berg" "bob@x" "p2" =
      Except.ok
        ({ dbC1 with
            attendees := dbC1.attendees ++ [⟨dbC1.nextAttendeeId, "Bob", "Berg", "bob@x", "p2", 1, false⟩],
            nextAttendeeId := dbC1.nextAttendeeId + 1 },
         ⟨dbC1.nextAttendeeId, "Bob", "Berg", "bob@x", "p2", 1, false⟩) :=
  (register_attendee_capacity dbC1 1 "Bob" "Berg" "bob@x" "p2" evC1 (by decide)).1
    (by decide) (by decide)

/-- C1 counterexample: in `dbC1` the event has capacity 5 and only one
attendee — strictly below capacity — yet registering a second attendee
that reuses the stored email "ann@x" does not succeed (the commit hits the
UNIQUE constraint), so "succeeds whenever the count is strictly less than
max_attendees" is false as stated. -/
theorem register_capacity_only_refuted :
    findEvent dbC1 1 = some evC1 ∧
    ((attendeesOf dbC1.attendees 1).length : Int) < evC1.max_attendees ∧
    register_attendee dbC1 1 "Bob" "Berg" "ann@x" "p2" = Except.error ApiError.integrityError :=
  ⟨by decide, by decide, by decide⟩

/-- C2 (amended): if a registration with email `em` succeeded, a second
registration with the same email — against an existing event with spare
capacity, so that neither the 404 nor the 400 branch is taken — fails with
the `IntegrityError` of the storage layer, which is not a service-level
`HTTPException`: no service code catches it, so it escapes unhandled. -/
theorem duplicate_email_integrity_error (db db₂ : DB) (eid₁ eid₂ : Int)
    (fn₁ ln₁ ph₁ fn₂ ln₂ ph₂ em : String) (a : Attendee) (ev₂ : Event)
    (h₁ : register_attendee db eid₁ fn₁ ln₁ em ph₁ = Except.ok (db₂, a))
    (hfind : findEvent db₂ eid₂ = some ev₂)
    (hcap : ((attendeesOf db₂.attendees eid₂).length : Int) < ev₂.max_attendees) :
    register_attendee db₂ eid₂ fn₂ ln₂ em ph₂ = Except.error ApiError.integrityError ∧
    ApiError.integrityError.isServiceLevel = false := by
  refine ⟨?_, rfl⟩
  have hmem : ∃ x ∈ db₂.attendees, x.email = em := by
    simp only [register_attendee] at h₁
    split at h₁
    · exact Except.noConfusion h₁
    · split at h₁
      · exact Except.noConfusion h₁
      · split at h₁
        · exact Except.noConfusion h₁
        · simp only [Except.ok.injEq, Prod.mk.injEq] at h₁
          obtain ⟨hdb, -⟩ := h₁
          refine ⟨⟨db.nextAttendeeId, fn₁, ln₁, em, ph₁, eid₁, false⟩, ?_, rfl⟩
          rw [← hdb]
          dsimp only
          exact List.mem_append_right _ (by simp)
  have hany : db₂.attendees.any (fun x => x.email == em) = true := by
    rcases hmem with ⟨x, hx, hxe⟩
    simp only [List.any_eq_true]
    exact ⟨x, hx, by simp [hxe]⟩
  simp only [register_attendee, hfind]
  rw [if_neg (not_le.mpr hcap)]
  rw [if_pos hany]

/-- Witness for `duplicate_email_integrity_error`: Ann registers "ann@x"
into the fresh event store; Bob then registers the same email and the
request fails with the unhandled integrity error. -/
theorem duplicate_email_integrity_error_witness :
    register_attendee dbC1 1 "Bob" "Berg" "ann@x" "p2" = Except.error ApiError.integrityError ∧
    ApiError.integrityError.isServiceLevel = false :=
  duplicate_email_integrity_error dbE1 dbC1 1 1 "Ann" "Ames" "p1" "Bob" "Berg" "p2" "ann@x"
    attC1 evC1 (by decide) (by decide) (by decide)

/-- C2 counterexample: the second registration with a duplicate email does
fail, but the failure is not surfaced as a service-level error — it is the
unhandled storage exception, contradicting the claim as stated. -/
theorem duplicate_email_service_error_refuted :
    requestFailed (register_attendee dbC1 1 "Bob" "Berg" "ann@x" "p2") = true ∧
    failsServiceLevel (register_attendee dbC1 1 "Bob" "Berg" "ann@x" "p2") = false :=
  ⟨by decide, by decide⟩

/-! ### Filter composition lemmas for the listEvents query -/

theorem filter2_comm {α : Type} (p q : α → Bool) (l : List α) :
    (l.filter p).filter q = l.filter (fun a => p a && q a) := by
  rw [List.filter_filter]
  refine List.filter_congr ?_
  intro a _
  cases p a <;> cases q a <;> rfl

theorem filter3_comm {α : Type} (p q r : α → Bool) (l : List α) :
    ((l.filter p).filter q).filter r = l.filter (fun a => p a && (q a && r a)) := by
  rw [List.filter_filter, List.filter_filter]
  refine List.filter_congr ?_
  intro a _
  cases p a <;> cases q a <;> cases r a <;> rfl

/-- C6 (amended): `listEvents` returns exactly the events matching all
provided filters with AND semantics — status equality, location equality,
and for a given date `d` the window `start_time ≥ d ∧ end_time ≤ d + 24h`
(so an event spanning more than that single-day window is excluded, as the
second conjunct makes explicit) — provided the location filter, when
present, is not the empty string.  (The restriction is forced: the source
guards each filter with Python truthiness, and `""` is falsy, so an
empty-string location filter is ignored; see the counterexample.) -/
theorem list_events_filters (db : DB) (status : Option EventStatus)
    (location : Option String) (date : Option Int) (hloc : location ≠ some "") :
    list_events db status location date =
      db.events.filter (spec_matchesFilters status location date) ∧
    (∀ d : Int, date = some d → ∀ e ∈ list_events db status location date,
      e.end_time - e.start_time ≤ oneDay) := by
  constructor
  · show list_events db status location date =
        db.events.filter (fun e => spec_matchesFilters status location date e)
    cases status with
    | none =>
      cases location with
      | none =>
        cases date with
        | none => simp [list_events, spec_matchesFilters]
        | some d => simp [list_events, spec_matchesFilters]
      | some l =>
        have hbe : (l == "") = false := by
          rw [beq_eq_false_iff_ne]
          intro h
          exact hloc (by rw [h])
        cases date with
        | none => simp [list_events, spec_matchesFilters, hbe]
        | some d =>
          simp [list_events, spec_matchesFilters, hbe,
            Bool.and_comm, Bool.and_left_comm, Bool.and_assoc]
    | some s =>
      cases location with
      | none =>
        cases date with
        | none => simp [list_events, spec_matchesFilters]
        | some d =>
          simp [list_events, spec_matchesFilters,
            Bool.and_comm, Bool.and_left_comm, Bool.and_assoc]
      | some l =>
        have hbe : (l == "") = false := by
          rw [beq_eq_false_iff_ne]
          intro h
          exact hloc (by rw [h])
        cases date with
        | none =>
          simp [list_events, spec_matchesFilters, hbe,
            Bool.and_comm, Bool.and_left_comm, Bool.and_assoc]
        | some d =>
          simp [list_events, spec_matchesFilters, hbe,
            Bool.and_comm, Bool.and_left_comm, Bool.and_assoc]
  · intro d hd e he
    subst hd
    simp only [list_events] at he
    have hmem := (List.mem_filter.mp he).2
    simp only [Bool.and_eq_true, decide_eq_true_eq] at hmem
    simp only [oneDay] at hmem ⊢
    omega

/-- Witness for `list_events_filters` with all three filters provided (a
non-empty location). -/
theorem list_events_filters_witness :
    list_events dbC1 (some EventStatus.scheduled) (some "HQ") (some 0) =
      dbC1.events.filter
        (spec_matchesFilters (some EventStatus.scheduled) (some "HQ") (some 0)) :=
  (list_events_filters dbC1 (some EventStatus.scheduled) (some "HQ") (some 0)
    (by decide)).1

/-- C6 counterexample: with the provided location filter `""`, the query
ignores the filter (Python truthiness treats `""` as absent) and returns
the event located at "HQ", while filtering by the provided filters would
return nothing — so the claim is false as stated for empty-string
locations. -/
theorem list_events_filters_refuted :
    list_events dbC1 none (some "") none ≠
      dbC1.events.filter (spec_matchesFilters none (some "") none) := by decide

/-! ### Bulk check-in lemmas -/

theorem setCheckInFirst_eq_map (aid : Int) (l : List Attendee)
    (h : l.Pairwise (fun a b => a.attendee_id ≠ b.attendee_id)) :
    setCheckInFirst aid l =
      l.map (fun a => if a.attendee_id == aid then { a with check_in_status := true } else a) := by
  induction l with
  | nil => rfl
  | cons b t ih =>
    have hb := (List.pairwise_cons.mp h).1
    have ht := (List.pairwise_cons.mp h).2
    simp only [setCheckInFirst, List.map_cons]
    by_cases hba : (b.attendee_id == aid) = true
    · rw [if_pos hba, if_pos hba]
      have hbeq : b.attendee_id = aid := by simpa using hba
      have hpt : ∀ x ∈ t,
          (if x.attendee_id == aid then { x with check_in_status := true } else x) = id x := by
        intro x hx
        have hxne : x.attendee_id ≠ aid := by
          rw [← hbeq]
          exact fun hc => (hb x hx) hc.symm
        simp [hxne]
      rw [List.map_congr_left hpt, List.map_id]
    · rw [if_neg hba, if_neg hba, ih ht]

theorem bulk_rows_wellformed (rows : List Row) : ∀ l : List Attendee,
    (∀ row ∈ rows, (parseRow row).isSome) →
    l.Pairwise (fun a b => a.attendee_id ≠ b.attendee_id) →
    bulk_check_in_rows l rows =
      Except.ok (l.map (fun a =>
        if (rows.filterMap parseRow).contains a.attendee_id then
          { a with check_in_status := true } else a)) := by
  induction rows with
  | nil =>
    intro l _ _
    simp [bulk_check_in_rows]
  | cons row rest ih =>
    intro l hwf hp
    obtain ⟨aid, haid⟩ : ∃ aid, parseRow row = some aid :=
      Option.isSome_iff_exists.mp (hwf row (List.mem_cons_self row rest))
    obtain ⟨s, hh, hs⟩ : ∃ s, row.head? = some s ∧ parseIntField s = some aid := by
      unfold parseRow at haid
      cases hh : row.head? with
      | none => rw [hh] at haid; exact Option.noConfusion haid
      | some s => rw [hh] at haid; exact ⟨s, rfl, haid⟩
    simp only [bulk_check_in_rows, hh, hs]
    rw [setCheckInFirst_eq_map aid l hp]
    have hmapids : (l.map (fun a =>
        if a.attendee_id == aid then { a with check_in_status := true } else a)).map
          (fun a => a.attendee_id) = l.map (fun a => a.attendee_id) := by
      rw [List.map_map]
      refine List.map_congr_left ?_
      intro a _
      by_cases hx : (a.attendee_id == aid) = true <;> simp [Function.comp, hx]
    have hwfr : ∀ r ∈ rest, (parseRow r).isSome :=
      fun r hr => hwf r (List.mem_cons_of_mem _ hr)
    rw [ih _ hwfr (mapEq_pairwise hmapids.symm hp)]
    have hfm : (row :: rest).filterMap parseRow = aid :: rest.filterMap parseRow :=
      List.filterMap_cons_some haid
    rw [hfm, List.map_map]
    refine congrArg Except.ok (List.map_congr_left ?_)
    intro a _
    by_cases h1 : (a.attendee_id == aid) = true
    · simp only [Function.comp, h1, if_pos]
      have haeq : a.attendee_id = aid := by simpa using h1
      simp [List.contains_cons, haeq]
    · simp only [Function.comp_apply, if_neg h1]
      have h1f : (a.attendee_id == aid) = false := by
        simpa using h1
      have : ((aid :: rest.filterMap parseRow).contains a.attendee_id) =
          ((rest.filterMap parseRow).contains a.attendee_id) := by
        simp only [List.contains_cons, h1f, Bool.false_or]
      rw [this]

/-- C7: for every upload whose rows are all well-formed (first field parses
as an integer), `bulkCheckIn` succeeds with the completion message; every
stored attendee whose id appears among the parsed ids gets
`check_in_status = true`, and every other attendee — including every id in
the upload that matches no attendee, which is skipped with no per-row
error — is left untouched. -/
theorem bulk_check_in_wellformed (db : DB) (rows : List Row) (hr : reachable db)
    (hwf : ∀ row ∈ rows, (parseRow row).isSome) :
    bulk_check_in db rows =
      Except.ok
        ({ db with attendees := db.attendees.map (fun a =>
            if (rows.filterMap parseRow).contains a.attendee_id then
              { a with check_in_status := true } else a) },
         "Bulk check-in completed") := by
  have hp := (dbinv_reachable db hr).attIds
  simp only [bulk_check_in, bulk_rows_wellformed rows db.attendees hwf hp]

/-- Witness for `bulk_check_in_wellformed`: checking in ids 1 (present)
and 99 (absent) on the two-attendee store succeeds. -/
theorem bulk_check_in_wellformed_witness :
    bulk_check_in dbW2 rowsW =
      Except.ok
        ({ dbW2 with attendees := dbW2.attendees.map (fun a =>
            if (rowsW.filterMap parseRow).contains a.attendee_id then
              { a with check_in_status := true } else a) },
         "Bulk check-in completed") :=
  bulk_check_in_wellformed dbW2 rowsW ⟨opsW2, rfl⟩ (by decide)

theorem bulk_rows_malformed (rows : List Row)
    (hbad : ∃ row ∈ rows, ∃ s, row.head? = some s ∧ parseIntField s = none) :
    ∀ l : List Attendee, ∃ err, bulk_check_in_rows l rows = Except.error err := by
  induction rows with
  | nil =>
    obtain ⟨row, hmem, -⟩ := hbad
    exact absurd hmem (List.not_mem_nil row)
  | cons row rest ih =>
    intro l
    cases hh : row.head? with
    | none => exact ⟨ApiError.indexError, by simp [bulk_check_in_rows, hh]⟩
    | some s =>
      cases hp : parseIntField s with
      | none => exact ⟨ApiError.valueError, by simp [bulk_check_in_rows, hh, hp]⟩
      | some aid =>
        have hbad₂ : ∃ r ∈ rest, ∃ s₂, r.head? = some s₂ ∧ parseIntField s₂ = none := by
          obtain ⟨r, hmem, s₂, hh₂, hp₂⟩ := hbad
          rcases List.mem_cons.mp hmem with rfl | hmem₂
          · rw [hh] at hh₂
            cases hh₂
            rw [hp] at hp₂
            exact Option.noConfusion hp₂
          · exact ⟨r, hmem₂, s₂, hh₂, hp₂⟩
        obtain ⟨err, herr⟩ := ih hbad₂ (setCheckInFirst aid l)
        exact ⟨err, by simp [bulk_check_in_rows, hh, hp, herr]⟩

/-- C9: if any row of the upload has a first field that is not an integer
literal, the whole bulk check-in fails (the `int()` call raises before the
single commit at the end), and the persisted store is unchanged — no
check-in from the invocation survives, including those applied to rows
processed before the malformed one. -/
theorem bulk_check_in_malformed_fails (db : DB) (rows : List Row)
    (hbad : ∃ row ∈ rows, ∃ s, row.head? = some s ∧ parseIntField s = none) :
    requestFailed (bulk_check_in db rows) = true ∧
    applyOp db (Op.bulkCheckIn rows) = db := by
  obtain ⟨err, herr⟩ := bulk_rows_malformed rows hbad db.attendees
  constructor
  · simp [bulk_check_in, requestFailed, herr]
  · simp [applyOp, bulk_check_in, herr]

/-- Witness for `bulk_check_in_malformed_fails`: the upload whose second
row reads "abc" fails, and the store stays exactly `dbW2` even though the
first row (id 1) was processed before the failure. -/
theorem bulk_check_in_malformed_fails_witness :
    requestFailed (bulk_check_in dbW2 rowsBad) = true ∧
    applyOp dbW2 (Op.bulkCheckIn rowsBad) = dbW2 :=
  bulk_check_in_malformed_fails dbW2 rowsBad
    ⟨["abc"], by decide, "abc", rfl, by decide⟩
